import Mathlib

/-!
# Variorum: ARM dispatch layer and the powmon harness

A shallow embedding of `src/variorum/ARM/ARM.c` and `src/powmon/powmon.c`.
Calls into code outside these files (the hardware backend, the topology
query, libc, the election library) are parameters of the model; every call
the C code makes is recorded in an explicit trace.
-/

namespace Variorum

/-! ## ARM.c -/

/-- Calls and output of the ARM dispatch functions, in program order. -/
inductive ArmEv where
  | get_clocks_data (socket : Nat) (long_ver : Int)
  | get_frequencies (socket : Nat)
  | cap_socket_frequency (cpuid : Int) (freq : Int)
  | stdout_cpu_id_does_not_exist
  deriving DecidableEq, Repr

/-- True for the events that are calls into the hardware backend. -/
def ArmEv.is_backend_call : ArmEv → Bool
  | .get_clocks_data _ _ => true
  | .get_frequencies _ => true
  | .cap_socket_frequency _ _ => true
  | .stdout_cpu_id_does_not_exist => false

/-- The backend functions ARM.c calls (declared in `power_features.h`): each
takes its C arguments and the hardware state and yields an `int` status and
the next state. -/
structure ArmBackend (σ : Type) where
  get_clocks_data : Nat → Int → σ → Int × σ
  get_frequencies : Nat → σ → Int × σ
  cap_socket_frequency : Int → Int → σ → Int × σ

/-- Width of `unsigned`: values are taken modulo `2^32`. -/
def UINT_MOD : Nat := 4294967296

/-- Conversion of an `int` to `unsigned` (C usual arithmetic conversions). -/
def int_to_unsigned (x : Int) : Nat := (x % (UINT_MOD : Int)).toNat

/-- The `for (iter = 0; iter < nsockets; iter++)` loop of `arm_get_clocks`.
`ret` is `none` while the local `int ret` is still uninitialised. `fuel`
bounds the number of loop tests; `none` is returned when it runs out. -/
def arm_get_clocks_loop {σ : Type} (be : ArmBackend σ) (nsockets : Nat) (long_ver : Int) :
    Nat → Nat → Option Int → List ArmEv → σ → Option (Option Int × List ArmEv × σ)
  | 0, _, _, _, _ => none
  | fuel + 1, iter, ret, tr, s =>
    if iter < nsockets then
      let r := be.get_clocks_data iter long_ver s
      arm_get_clocks_loop be nsockets long_ver fuel ((iter + 1) % UINT_MOD) (some r.1)
        (tr ++ [ArmEv.get_clocks_data iter long_ver]) r.2
    else some (ret, tr, s)

/-- Embedding of `arm_get_clocks(long_ver)`; `nsockets` is what
`variorum_get_topology` stores. The result is the returned `int` (`none`:
the uninitialised `ret` is returned), the trace and the final state. -/
def arm_get_clocks {σ : Type} (be : ArmBackend σ) (nsockets : Nat) (long_ver : Int) (s : σ) :
    Option (Option Int × List ArmEv × σ) :=
  arm_get_clocks_loop be nsockets long_ver (nsockets + 1) 0 none [] s

/-- The `for` loop of `arm_get_frequencies`. -/
def arm_get_frequencies_loop {σ : Type} (be : ArmBackend σ) (nsockets : Nat) :
    Nat → Nat → Option Int → List ArmEv → σ → Option (Option Int × List ArmEv × σ)
  | 0, _, _, _, _ => none
  | fuel + 1, iter, ret, tr, s =>
    if iter < nsockets then
      let r := be.get_frequencies iter s
      arm_get_frequencies_loop be nsockets fuel ((iter + 1) % UINT_MOD) (some r.1)
        (tr ++ [ArmEv.get_frequencies iter]) r.2
    else some (ret, tr, s)

/-- Embedding of `arm_get_frequencies()`. -/
def arm_get_frequencies {σ : Type} (be : ArmBackend σ) (nsockets : Nat) (s : σ) :
    Option (Option Int × List ArmEv × σ) :=
  arm_get_frequencies_loop be nsockets (nsockets + 1) 0 none [] s

/-- Embedding of `arm_cap_socket_frequency(cpuid, freq)`. The test
`cpuid < 0 || cpuid >= nsockets` compares an `int` with an `unsigned`, so the
second operand is evaluated on `cpuid` converted to `unsigned`. -/
def arm_cap_socket_frequency {σ : Type} (be : ArmBackend σ) (nsockets : Nat)
    (cpuid freq : Int) (s : σ) : Int × List ArmEv × σ :=
  if cpuid < 0 || decide (nsockets ≤ int_to_unsigned cpuid) then
    (-1, [ArmEv.stdout_cpu_id_does_not_exist], s)
  else
    let r := be.cap_socket_frequency cpuid freq s
    (r.1, [ArmEv.cap_socket_frequency cpuid freq], r.2)

/-- A backend whose status depends only on the socket: `status i` for
socket `i`; it counts the calls it has served. -/
def table_backend (status : Nat → Int) : ArmBackend Nat where
  get_clocks_data := fun i _ n => (status i, n + 1)
  get_frequencies := fun i n => (status i, n + 1)
  cap_socket_frequency := fun cpuid _ n => (status cpuid.toNat, n + 1)

/-! ## powmon.c -/

/-- A C string: its characters up to the terminating NUL. -/
abbrev CStr := List Char

/-- Calls and output of `main`, in program order. -/
inductive Ev where
  | printf_usage (prog : Option CStr)
  | getopt_invalid_option (c : Char)
  | getopt_requires_argument (c : Char)
  | highlander_clean
  | printf_exiting
  | stderr_unknown_parameter (optopt : Char)
  | stderr_usage (prog : Option CStr)
  | stderr_must_specify_a
  | realloc (count : Nat)
  | highlander
  | gethostname
  | open_excl (fname : CStr)
  | stderr_cannot_open (fname : CStr)
  | fdopen (fname : CStr)
  | stderr_fdopen_failed (fname : CStr)
  | pthread_create_power_measurement
  | fork
  | printf_profiling (args : List (Option CStr))
  | execvp (file : Option CStr) (args : List (Option CStr))
  | printf_fork_failure
  | printf_fork_failure_argv1
  | waitpid (pid : Int)
  | sleep
  | highlander_wait
  | stop_running
  | take_measurement
  | now_ms
  | fprintf_summary (host : CStr) (pid : Int) (runtime start stop : Nat)
  | fclose_summary
  | close_fd
  | shmctl_rmid
  | shmdt
  | pthread_attr_destroy
  | printf_output_files (dat summary : Option CStr)
  deriving DecidableEq, Repr

/-- How a run of `main` in one process ends: it returns `code`, or `execvp`
replaces the process image, or it stores through the null pointer an
unchecked failed realloc returned. -/
inductive Outcome where
  | exit (code : Int)
  | exec_replaced
  | null_dereference
  deriving DecidableEq, Repr

/-- What the operating system and the libraries answer during one run of
`main` in one process: whether `POSIXLY_CORRECT` is set, whether the realloc
call made after `k` earlier ones succeeds, the values returned by
`highlander()`, `gethostname`, the two `open` calls and `fork()`, whether the
two `fdopen` calls succeed, whether `execvp` fails (returns), and the
`unsigned long` time stamps `start` and `end`. -/
structure Env where
  posixly_correct : Bool
  realloc_ok : Nat → Bool
  highlander : Int
  hostname : CStr
  open_dat : Int
  fdopen_dat_ok : Bool
  fork : Int
  execvp_fails : Bool
  open_summary : Int
  fdopen_summary_ok : Bool
  start_ms : Nat
  end_ms : Nat

/-! ### getopt -/

/-- The scanning state of `getopt`: `rest` are the elements of `argv` from
`optind` on, `nextchar` the unread characters of the current option element,
`optarg` and `optopt` the globals of the same name. -/
structure GetoptState where
  rest : List CStr
  nextchar : CStr
  optarg : Option CStr
  optopt : Char
  deriving DecidableEq, Repr

/-- Advance to the next option element of `argv`. An element is an option
when it starts with `-` and has a second character; any other element is a
non-option. In the default (permuting) mode non-options are skipped; with
`POSIXLY_CORRECT` set the scan stops at the first one; `--` ends the scan in
both modes. The result is the first character after the leading `-`, the
characters after it, and the elements of `argv` that follow. -/
def getopt_advance (posix : Bool) : List CStr → Option (Char × CStr × List CStr)
  | [] => none
  | ('-' :: c :: cs) :: ws => if c = '-' ∧ cs = [] then none else some (c, cs, ws)
  | _ :: ws => if posix then none else getopt_advance posix ws

/-- Whether option character `c` is declared in `optstring` and, if so,
whether it takes an argument (is followed by `:`). -/
def optstring_lookup (c : Char) : CStr → Option Bool
  | [] => none
  | x :: xs =>
    if x = c then some (xs.head? = some ':') else optstring_lookup c xs

/-- One option character `c` of the current element, the rest of the element
being `cs` and the following elements `ws`. -/
def getopt_char (optstring : CStr) (c : Char) (cs : CStr) (ws : List CStr) (st : GetoptState) :
    Option Char × GetoptState × List Ev :=
  match (if c = ':' ∨ c = ';' then none else optstring_lookup c optstring) with
  | none =>
    (some '?', { st with rest := ws, nextchar := cs, optopt := c }, [Ev.getopt_invalid_option c])
  | some false => (some c, { st with rest := ws, nextchar := cs }, [])
  | some true =>
    if cs ≠ [] then (some c, { st with rest := ws, nextchar := [], optarg := some cs }, [])
    else match ws with
      | [] =>
        (some '?', { st with rest := [], nextchar := [], optopt := c },
          [Ev.getopt_requires_argument c])
      | a :: ws' => (some c, { st with rest := ws', nextchar := [], optarg := some a }, [])

/-- One call of `getopt(argc, argv, optstring)` (glibc, `opterr` at its
default 1, `optstring` without a leading `+`, `-` or `:`): the returned
character (`none` for -1), the new state and what getopt itself writes to
standard error. -/
def getopt (posix : Bool) (optstring : CStr) (st : GetoptState) :
    Option Char × GetoptState × List Ev :=
  match st.nextchar with
  | c :: cs => getopt_char optstring c cs st.rest st
  | [] =>
    match getopt_advance posix st.rest with
    | none => (none, st, [])
    | some (c, cs, ws) => getopt_char optstring c cs ws st

/-! ### strtok -/

/-- One call of `strtok(s, delim)`: `s = none` is the call with a null first
argument, which continues at the saved position `save`. The result is the
token (`none` for NULL) and the new saved position. -/
def strtok (s : Option CStr) (delim : CStr) (save : CStr) : Option CStr × CStr :=
  let str := (s.getD save).dropWhile (fun c => delim.contains c)
  if str = [] then (none, [])
  else (some (str.takeWhile (fun c => !delim.contains c)),
        (str.dropWhile (fun c => !delim.contains c)).tail)

/-! ### main -/

/-- How the option loop of `main` ends: with a `return`, or by falling
through with the locals `app_flag` and `app` (`none`: never assigned). -/
inductive OptLoop where
  | returned (code : Int)
  | finished (app_flag : Int) (app : Option CStr)
  deriving DecidableEq, Repr

/-- The second argument of every `getopt` call in `main`: `"ca:"`. -/
def main_optstring : CStr := ['c', 'a', ':']

/-- The loop `while ((opt = getopt(argc, argv, "ca:")) != -1) switch (opt)`.
`fuel` bounds the number of `getopt` calls. -/
def main_getopt_loop (env : Env) (argv0 : Option CStr) :
    Nat → GetoptState → Int → Option CStr → List Ev → Option (OptLoop × List Ev)
  | 0, _, _, _, _ => none
  | fuel + 1, st, app_flag, app, tr =>
    let r := getopt env.posixly_correct main_optstring st
    match r.1 with
    | none => some (OptLoop.finished app_flag app, tr ++ r.2.2)
    | some opt =>
      if opt = 'c' then
        some (OptLoop.returned 0, tr ++ r.2.2 ++ [Ev.highlander_clean, Ev.printf_exiting])
      else if opt = 'a' then
        main_getopt_loop env argv0 fuel r.2.1 1 r.2.1.optarg (tr ++ r.2.2)
      else if opt = '?' then
        some (OptLoop.returned 1,
          tr ++ r.2.2 ++ [Ev.stderr_unknown_parameter r.2.1.optopt, Ev.stderr_usage argv0])
      else some (OptLoop.returned 1, tr ++ r.2.2)

/-- Number of characters and elements `getopt` has still to scan; every call
that does not return -1 lowers it. -/
def getopt_measure (st : GetoptState) : Nat :=
  st.nextchar.length + (st.rest.map (fun w => w.length + 1)).sum

/-- How the splitting of the `-a` string ends. -/
inductive Built where
  | returned (o : Outcome)
  | arg (arg : List (Option CStr)) (n_spaces : Nat)
  deriving DecidableEq, Repr

/-- The loop `while (app_split)` of `main`: `arg` is the array built so far,
`save` the position `strtok` keeps between calls. `realloc_ok k` tells
whether the realloc call made after `k` earlier ones succeeds. `fuel` bounds
the number of loop tests. The `int n_spaces` counts the tokens of one
command-line argument and stays far below `2^31`; it is not reduced. -/
def main_strtok_loop (env : Env) :
    Nat → Option CStr → CStr → List (Option CStr) → Nat → List Ev → Option (Built × List Ev)
  | 0, _, _, _, _, _ => none
  | fuel + 1, app_split, save, arg, n_spaces, tr =>
    match app_split with
    | none => some (Built.arg arg n_spaces, tr)
    | some tok =>
      if env.realloc_ok n_spaces then
        let r := strtok none [' '] save
        main_strtok_loop env fuel r.1 r.2 (arg ++ [some tok]) (n_spaces + 1)
          (tr ++ [Ev.realloc (n_spaces + 1)])
      else some (Built.returned (Outcome.exit 1), tr ++ [Ev.realloc (n_spaces + 1)])

/-- Lines 137-151 of `main`: split `app` with `strtok(app, " ")` into the
array `arg`, then grow the array by one and store the terminating null
pointer. The last realloc is not checked: when it fails the store goes
through a null pointer. -/
def main_build_arg (env : Env) (app : CStr) : Option (Built × List Ev) :=
  let r := strtok (some app) [' '] []
  match main_strtok_loop env (app.length + 1) r.1 r.2 [] 0 [] with
  | none => none
  | some (Built.returned o, tr) => some (Built.returned o, tr)
  | some (Built.arg arg n_spaces, tr) =>
    if env.realloc_ok n_spaces then
      some (Built.arg (arg ++ [none]) n_spaces, tr ++ [Ev.realloc (n_spaces + 1)])
    else some (Built.returned Outcome.null_dereference, tr ++ [Ev.realloc (n_spaces + 1)])

/-- The file name `<hostname>.powmon.dat`. -/
def fname_dat (env : Env) : CStr :=
  env.hostname ++ ['.', 'p', 'o', 'w', 'm', 'o', 'n', '.', 'd', 'a', 't']

/-- The file name `<hostname>.powmon.summary`. -/
def fname_summary (env : Env) : CStr :=
  env.hostname ++ ['.', 'p', 'o', 'w', 'm', 'o', 'n', '.', 's', 'u', 'm', 'm', 'a', 'r', 'y']

/-- Lines 193-243 of `main`, in the process where `highlander()` returned
non-zero, from the `fork()` on; `pre` is the trace up to the fork. -/
def main_leader_fork (env : Env) (arg : List (Option CStr)) (n_spaces : Nat) (pre : List Ev) :
    Outcome × List Ev :=
  if env.fork = 0 then
    let child := pre ++ [Ev.fork, Ev.printf_profiling (arg.take n_spaces),
      Ev.execvp (arg.headD none) arg]
    if env.execvp_fails then (Outcome.exit 1, child ++ [Ev.printf_fork_failure])
    else (Outcome.exec_replaced, child)
  else
    let waited := pre ++ [Ev.fork, Ev.waitpid env.fork, Ev.sleep, Ev.highlander_wait,
      Ev.stop_running, Ev.take_measurement, Ev.now_ms, Ev.open_excl (fname_summary env)]
    if env.open_summary < 0 then
      (Outcome.exit 1, waited ++ [Ev.stderr_cannot_open (fname_summary env)])
    else if !env.fdopen_summary_ok then
      (Outcome.exit 1,
        waited ++ [Ev.fdopen (fname_summary env), Ev.stderr_fdopen_failed (fname_summary env)])
    else
      (Outcome.exit 0, waited ++ [Ev.fdopen (fname_summary env),
        Ev.fprintf_summary env.hostname env.fork
          ((env.end_ms + 18446744073709551616 - env.start_ms) % 18446744073709551616)
          env.start_ms env.end_ms,
        Ev.fclose_summary, Ev.close_fd, Ev.shmctl_rmid, Ev.shmdt, Ev.pthread_attr_destroy,
        Ev.printf_output_files (some (fname_dat env)) (some (fname_summary env)),
        Ev.highlander_clean])

/-- Lines 161-270 of `main`: the election and the measurement session. The
follower prints the two file names without having assigned them (`none`);
its child prints `argv[1]` as getopt's permutation of `argv` left it, which
the event `printf_fork_failure_argv1` does not record. -/
def main_session (env : Env) (arg : List (Option CStr)) (n_spaces : Nat) :
    Outcome × List Ev :=
  if env.highlander ≠ 0 then
    let opened := [Ev.highlander, Ev.gethostname, Ev.open_excl (fname_dat env)]
    if env.open_dat < 0 then (Outcome.exit 1, opened ++ [Ev.stderr_cannot_open (fname_dat env)])
    else if !env.fdopen_dat_ok then
      (Outcome.exit 1, opened ++ [Ev.fdopen (fname_dat env), Ev.stderr_fdopen_failed (fname_dat env)])
    else
      main_leader_fork env arg n_spaces
        (opened ++ [Ev.fdopen (fname_dat env), Ev.pthread_create_power_measurement])
  else if env.fork = 0 then
    let child := [Ev.highlander, Ev.fork, Ev.execvp (arg.headD none) arg]
    if env.execvp_fails then (Outcome.exit 1, child ++ [Ev.printf_fork_failure_argv1])
    else (Outcome.exec_replaced, child)
  else
    (Outcome.exit 0, [Ev.highlander, Ev.fork, Ev.waitpid env.fork, Ev.highlander_wait,
      Ev.printf_output_files none none, Ev.highlander_clean])

/-- The test of line 97: no argument at all, or `argv[1]` starts with
`--help` or with `-h` (`strncmp` over the length of the literal). -/
def main_wants_usage (argv : List CStr) : Bool :=
  argv.length == 1 ||
    (decide (1 < argv.length) &&
      (List.isPrefixOf ['-', '-', 'h', 'e', 'l', 'p'] (argv.getD 1 []) ||
        List.isPrefixOf ['-', 'h'] (argv.getD 1 [])))

/-- The state in which `main` makes its first `getopt` call: `optind = 1`. -/
def getopt_init (argv : List CStr) : GetoptState :=
  { rest := argv.drop 1, nextchar := [], optarg := none, optopt := '?' }

/-- Embedding of `main(argc, argv)` of powmon.c, `argc = argv.length`. The
result is `none` only if a loop ran out of fuel. `app` is read only when
`app_flag` is set, and it is assigned whenever `app_flag` is. -/
def main (env : Env) (argv : List CStr) : Option (Outcome × List Ev) :=
  if main_wants_usage argv then some (Outcome.exit 0, [Ev.printf_usage argv.head?])
  else
    match main_getopt_loop env argv.head? (getopt_measure (getopt_init argv) + 1)
        (getopt_init argv) 0 none [] with
    | none => none
    | some (OptLoop.returned code, tr) => some (Outcome.exit code, tr)
    | some (OptLoop.finished app_flag app, tr) =>
      if app_flag = 0 then
        some (Outcome.exit 1, tr ++ [Ev.stderr_must_specify_a, Ev.stderr_usage argv.head?])
      else
        match main_build_arg env (app.getD []) with
        | none => none
        | some (Built.returned o, tr2) => some (o, tr ++ tr2)
        | some (Built.arg arg n_spaces, tr2) =>
          let r := main_session env arg n_spaces
          some (r.1, tr ++ tr2 ++ r.2)

/-- An environment for examples: host `n1`, every call succeeds, the process
is the parent of child 4242. `leader` is the answer of `highlander()`. -/
def env_ok (leader : Int) : Env :=
  { posixly_correct := false, realloc_ok := fun _ => true, highlander := leader,
    hostname := ['n', '1'], open_dat := 3, fdopen_dat_ok := true, fork := 4242,
    execvp_fails := false, open_summary := 4, fdopen_summary_ok := true,
    start_ms := 1000, end_ms := 3000 }

/-- The results of calling `getopt` again and again from state `st` until
it returns -1 (at most `fuel` calls): each returned character with the state
the call left. -/
def getopt_scan (posix : Bool) (optstring : CStr) : Nat → GetoptState → List (Char × GetoptState)
  | 0, _ => []
  | fuel + 1, st =>
    match (getopt posix optstring st).1 with
    | none => []
    | some c => (c, (getopt posix optstring st).2.1) ::
        getopt_scan posix optstring fuel (getopt posix optstring st).2.1

/-- Specification of the split, to be compared with what `main_build_arg`
computes: the non-empty pieces of `s` between space characters, in order. -/
def space_separated_words (s : CStr) : List CStr :=
  (s.splitOn ' ').filter (fun w => !w.isEmpty)

/-- What one call of `getopt` with the option string of `main` can return. -/
def GetoptShape (r : Option Char × GetoptState × List Ev) : Prop :=
  (r.1 = some 'c' ∧ r.2.2 = []) ∨ (r.1 = some 'a' ∧ r.2.2 = []) ∨
  (r.1 = some '?' ∧
    (r.2.2 = [Ev.getopt_invalid_option r.2.1.optopt] ∨
      r.2.2 = [Ev.getopt_requires_argument r.2.1.optopt]))

/-- The first result of the `getopt` calls of `main` on `argv` that is not
option `a`: the returned character and the value of `optopt`. It is `none`
when every call before the one returning -1 returns `a`. -/
def first_other_option (posix : Bool) (argv : List CStr) : Option (Char × Char) :=
  ((getopt_scan posix main_optstring (getopt_measure (getopt_init argv) + 1)
      (getopt_init argv)).find? (fun r => r.1 != 'a')).map (fun r => (r.1, r.2.optopt))

/-- The environment `env_ok 1` (leader) in which `fork()` fails: it
returns -1. -/
def env_fork_fails : Env := { env_ok 1 with fork := -1 }

/-! ### Loop lemmas -/

theorem int_to_unsigned_of_nonneg (x : Int) (h0 : 0 ≤ x) (h1 : x < 2147483648) :
    (int_to_unsigned x : Int) = x := by
  unfold int_to_unsigned UINT_MOD
  have : x % ((4294967296 : Nat) : Int) = x := Int.emod_eq_of_lt h0 (by omega)
  rw [this]
  exact Int.toNat_of_nonneg h0

/-! ### Claims on ARM.c -/

/-- C1: for every `int` cpuid, every `unsigned` socket count and every freq,
`arm_cap_socket_frequency` is rejected (returns -1 and the trace holds no
backend call) exactly when `cpuid < 0` or `cpuid >= nsockets`, and the backend
call `cap_socket_frequency(cpuid, freq)` is in the trace exactly when
`0 <= cpuid < nsockets`. -/
theorem arm_cap_socket_frequency_rejects_iff {σ : Type} (be : ArmBackend σ) (nsockets : Nat)
    (cpuid freq : Int) (s : σ)
    (hlo : -2147483648 ≤ cpuid) (hhi : cpuid < 2147483648) :
    (((arm_cap_socket_frequency be nsockets cpuid freq s).1 = -1 ∧
        (arm_cap_socket_frequency be nsockets cpuid freq s).2.1.filter ArmEv.is_backend_call = [])
      ↔ (cpuid < 0 ∨ (nsockets : Int) ≤ cpuid)) ∧
    (ArmEv.cap_socket_frequency cpuid freq ∈ (arm_cap_socket_frequency be nsockets cpuid freq s).2.1
      ↔ (0 ≤ cpuid ∧ cpuid < (nsockets : Int))) := by
  by_cases hneg : cpuid < 0
  · have hr : arm_cap_socket_frequency be nsockets cpuid freq s
        = (-1, [ArmEv.stdout_cpu_id_does_not_exist], s) := by
      simp [arm_cap_socket_frequency, hneg]
    rw [hr]
    refine ⟨⟨fun _ => Or.inl hneg, fun _ => ⟨rfl, by simp [ArmEv.is_backend_call]⟩⟩, ?_⟩
    constructor
    · intro h; simp at h
    · intro h; omega
  · have h0 : 0 ≤ cpuid := by omega
    have hconv := int_to_unsigned_of_nonneg cpuid h0 hhi
    by_cases hge : (nsockets : Int) ≤ cpuid
    · have hle : nsockets ≤ int_to_unsigned cpuid := by omega
      have hr : arm_cap_socket_frequency be nsockets cpuid freq s
          = (-1, [ArmEv.stdout_cpu_id_does_not_exist], s) := by
        simp [arm_cap_socket_frequency, hle]
      rw [hr]
      refine ⟨⟨fun _ => Or.inr hge, fun _ => ⟨rfl, by simp [ArmEv.is_backend_call]⟩⟩, ?_⟩
      constructor
      · intro h; simp at h
      · intro h; omega
    · have hle : ¬ nsockets ≤ int_to_unsigned cpuid := by omega
      have hr : arm_cap_socket_frequency be nsockets cpuid freq s
          = ((be.cap_socket_frequency cpuid freq s).1, [ArmEv.cap_socket_frequency cpuid freq],
              (be.cap_socket_frequency cpuid freq s).2) := by
        simp [arm_cap_socket_frequency, hneg, hle]
      rw [hr]
      refine ⟨⟨?_, ?_⟩, ?_⟩
      · rintro ⟨_, h⟩; simp [ArmEv.is_backend_call] at h
      · intro h; omega
      · constructor
        · intro _; omega
        · intro _; simp

/-- Witness of C1 at `cpuid = nsockets = 2`: rejected, no backend call. -/
theorem arm_cap_socket_frequency_rejects_iff_witness :
    (-2147483648 : Int) ≤ 2 ∧ (2 : Int) < 2147483648 ∧
    (((arm_cap_socket_frequency (table_backend (fun _ => 0)) 2 2 5 0).1 = -1 ∧
        (arm_cap_socket_frequency (table_backend (fun _ => 0)) 2 2 5 0).2.1.filter
          ArmEv.is_backend_call = [])
      ↔ ((2 : Int) < 0 ∨ ((2 : Nat) : Int) ≤ 2)) ∧
    (ArmEv.cap_socket_frequency 2 5 ∈
        (arm_cap_socket_frequency (table_backend (fun _ => 0)) 2 2 5 0).2.1
      ↔ ((0 : Int) ≤ 2 ∧ (2 : Int) < ((2 : Nat) : Int))) :=
  ⟨by decide, by decide,
    arm_cap_socket_frequency_rejects_iff (table_backend (fun _ => 0)) 2 2 5 0
      (by decide) (by decide)⟩

/-- C3: on a node with two sockets whose backend fails (status -1) on socket
0 and succeeds on socket 1, `arm_get_clocks` and `arm_get_frequencies` call
the backend for both sockets and return 0: the failure is lost. -/
theorem arm_all_sockets_lose_failure :
    arm_get_clocks (table_backend (fun i => if i = 0 then -1 else 0)) 2 0 0
      = some (some 0, [ArmEv.get_clocks_data 0 0, ArmEv.get_clocks_data 1 0], 2) ∧
    arm_get_frequencies (table_backend (fun i => if i = 0 then -1 else 0)) 2 0
      = some (some 0, [ArmEv.get_frequencies 0, ArmEv.get_frequencies 1], 2) := by
  constructor <;> rfl

/-- C4: for every valid socket id `0 <= cpuid < nsockets` and every freq,
`arm_cap_socket_frequency` makes exactly one backend call, with the same
cpuid and freq, and returns the status and state the backend produced;
in particular it returns 0 exactly when the backend did. -/
theorem arm_cap_socket_frequency_forwards {σ : Type} (be : ArmBackend σ) (nsockets : Nat)
    (cpuid freq : Int) (s : σ)
    (h0 : 0 ≤ cpuid) (hlt : cpuid < (nsockets : Int)) (hhi : cpuid < 2147483648) :
    arm_cap_socket_frequency be nsockets cpuid freq s
      = ((be.cap_socket_frequency cpuid freq s).1, [ArmEv.cap_socket_frequency cpuid freq],
          (be.cap_socket_frequency cpuid freq s).2) ∧
    ((arm_cap_socket_frequency be nsockets cpuid freq s).1 = 0
      ↔ (be.cap_socket_frequency cpuid freq s).1 = 0) := by
  have hconv := int_to_unsigned_of_nonneg cpuid h0 hhi
  have hneg : ¬ cpuid < 0 := by omega
  have hle : ¬ nsockets ≤ int_to_unsigned cpuid := by omega
  have hr : arm_cap_socket_frequency be nsockets cpuid freq s
      = ((be.cap_socket_frequency cpuid freq s).1, [ArmEv.cap_socket_frequency cpuid freq],
          (be.cap_socket_frequency cpuid freq s).2) := by
    simp [arm_cap_socket_frequency, hneg, hle]
  exact ⟨hr, by rw [hr]⟩

/-- Witness of C4: socket 1 of 2, the backend answers 7. -/
theorem arm_cap_socket_frequency_forwards_witness :
    (0 : Int) ≤ 1 ∧ (1 : Int) < ((2 : Nat) : Int) ∧ (1 : Int) < 2147483648 ∧
    arm_cap_socket_frequency (table_backend (fun _ => 7)) 2 1 5 0
      = (((table_backend (fun _ => 7)).cap_socket_frequency 1 5 0).1,
          [ArmEv.cap_socket_frequency 1 5],
          ((table_backend (fun _ => 7)).cap_socket_frequency 1 5 0).2) ∧
    ((arm_cap_socket_frequency (table_backend (fun _ => 7)) 2 1 5 0).1 = 0
      ↔ ((table_backend (fun _ => 7)).cap_socket_frequency 1 5 0).1 = 0) :=
  ⟨by decide, by decide, by decide,
    arm_cap_socket_frequency_forwards (table_backend (fun _ => 7)) 2 1 5 0
      (by decide) (by decide) (by decide)⟩

/-! ### strtok and the argument vector -/

theorem splitOnP_eq_takeWhile_cons (p : Char → Bool) (xs : CStr) :
    xs.splitOnP p = xs.takeWhile (fun c => !p c) ::
      (match xs.dropWhile (fun c => !p c) with
        | [] => []
        | _ :: r => r.splitOnP p) := by
  induction xs with
  | nil => simp
  | cons x xs ih =>
    rw [List.splitOnP_cons]
    by_cases h : p x
    · simp [h, List.takeWhile, List.dropWhile]
    · simp only [h, Bool.false_eq_true, if_false]
      rw [ih]
      simp [List.takeWhile, List.dropWhile, h, List.modifyHead]

theorem space_separated_words_nil : space_separated_words [] = [] := by
  simp [space_separated_words, List.splitOn]

theorem space_separated_words_dropWhile (s : CStr) :
    space_separated_words (s.dropWhile (fun c => c == ' ')) = space_separated_words s := by
  induction s with
  | nil => rfl
  | cons x xs ih =>
    by_cases h : x = ' '
    · subst h
      simp only [List.dropWhile, beq_self_eq_true]
      rw [ih]
      simp [space_separated_words, List.splitOn]
    · have hx : (x == ' ') = false := by simpa using h
      simp [List.dropWhile, hx]

theorem space_separated_words_cons (x : Char) (xs : CStr) (h : x ≠ ' ') :
    space_separated_words (x :: xs)
      = (x :: xs).takeWhile (fun c => !(c == ' ')) ::
        space_separated_words ((x :: xs).dropWhile (fun c => !(c == ' '))).tail := by
  unfold space_separated_words List.splitOn
  rw [splitOnP_eq_takeWhile_cons]
  have hx : (x == ' ') = false := by simpa using h
  cases hd : (x :: xs).dropWhile (fun c => !(c == ' ')) with
  | nil => simp [List.takeWhile, hx]
  | cons y r => simp [List.takeWhile, hx]

theorem strtok_space (s : Option CStr) (save : CStr) :
    strtok s [' '] save =
      if (s.getD save).dropWhile (fun c => c == ' ') = [] then (none, [])
      else (some (((s.getD save).dropWhile (fun c => c == ' ')).takeWhile (fun c => !(c == ' '))),
        (((s.getD save).dropWhile (fun c => c == ' ')).dropWhile (fun c => !(c == ' '))).tail) := by
  have h : ∀ c : Char, [' '].contains c = (c == ' ') := by
    intro c; cases hc : (c == ' ') <;> simp [List.contains, List.elem, hc]
  simp only [strtok, h]

theorem length_tail_dropWhile_lt (p : Char → Bool) (x : Char) (xs : CStr) :
    (((x :: xs).dropWhile p).tail).length < (x :: xs).length := by
  have h := (List.dropWhile_sublist p (l := x :: xs)).length_le
  have h2 := List.length_tail ((x :: xs).dropWhile p)
  simp only [List.length_cons] at h ⊢
  omega

theorem main_strtok_loop_spec (env : Env) (hok : ∀ k, env.realloc_ok k = true) :
    ∀ (fuel : Nat) (save : CStr) (arg : List (Option CStr)) (n : Nat) (tr : List Ev),
      save.length < fuel →
      main_strtok_loop env fuel (strtok none [' '] save).1 (strtok none [' '] save).2 arg n tr
        = some (Built.arg (arg ++ (space_separated_words save).map some)
            (n + (space_separated_words save).length),
          tr ++ (List.range' (n + 1) (space_separated_words save).length).map Ev.realloc) := by
  intro fuel
  induction fuel with
  | zero => intro save arg n tr h; omega
  | succ f ih =>
    intro save arg n tr hlen
    rw [strtok_space]
    simp only [Option.getD_none]
    cases hstr : save.dropWhile (fun c => c == ' ') with
    | nil =>
      have hw : space_separated_words save = [] := by
        rw [← space_separated_words_dropWhile, hstr, space_separated_words_nil]
      simp [main_strtok_loop, hw]
    | cons x xs =>
      have hx : x ≠ ' ' := by
        have := List.head_dropWhile_not (fun c => c == ' ') save (by rw [hstr]; simp)
        simpa [hstr] using this
      have hw : space_separated_words save
          = (x :: xs).takeWhile (fun c => !(c == ' ')) ::
            space_separated_words ((x :: xs).dropWhile (fun c => !(c == ' '))).tail := by
        rw [← space_separated_words_dropWhile, hstr, space_separated_words_cons x xs hx]
      have hl1 := length_tail_dropWhile_lt (fun c => !(c == ' ')) x xs
      have hl2 : (x :: xs).length ≤ save.length := by
        rw [← hstr]; exact (List.dropWhile_sublist _).length_le
      have hrec := ih ((x :: xs).dropWhile (fun c => !(c == ' '))).tail
        (arg ++ [some ((x :: xs).takeWhile (fun c => !(c == ' ')))]) (n + 1)
        (tr ++ [Ev.realloc (n + 1)]) (by omega)
      simp only [if_neg (List.cons_ne_nil x xs), main_strtok_loop, hok, if_true]
      rw [hrec, hw]
      simp [List.range'_succ, Nat.add_assoc, Nat.add_comm 1]

/-! ### Claims on the argument vector -/

/-- C5 as stated fails: for the command string `a  b` (two spaces) `main`
builds the vector `a`, `b`, null. The pieces between consecutive spaces are
`a`, the empty string and `b`, and joining the built entries with single
spaces gives `a b`, not the command string. -/
theorem main_build_arg_double_space :
    main_build_arg (env_ok 0) ['a', ' ', ' ', 'b']
      = some (Built.arg [some ['a'], some ['b'], none] 2,
          [Ev.realloc 1, Ev.realloc 2, Ev.realloc 3]) ∧
    List.splitOn ' ' ['a', ' ', ' ', 'b'] = [['a'], [], ['b']] ∧
    List.intercalate [' '] [['a'], ['b']] ≠ ['a', ' ', ' ', 'b'] := by
  refine ⟨by rfl, by rfl, by decide⟩

/-- C5 (amended): when every realloc succeeds, the vector `main` builds from
the command string `app` holds, in order, the non-empty pieces of `app`
between space characters (quotes and backslashes are ordinary characters),
followed by exactly one null entry, and `n_spaces` is their number; when no
piece is empty (no leading, trailing or doubled space), joining the entries
with single spaces gives back `app`. -/
theorem main_build_arg_words (env : Env) (app : CStr) (hok : ∀ k, env.realloc_ok k = true) :
    (∃ tr, main_build_arg env app
      = some (Built.arg ((space_separated_words app).map some ++ [none])
          (space_separated_words app).length, tr)) ∧
    ((app = [] ∨ [] ∉ List.splitOn ' ' app) →
      List.intercalate [' '] (space_separated_words app) = app) := by
  constructor
  · have h := main_strtok_loop_spec env hok (app.length + 1) app [] 0 [] (by omega)
    have hs : strtok (some app) [' '] [] = strtok none [' '] app := by
      simp [strtok_space]
    simp only [main_build_arg, hs, h, hok, if_true, List.nil_append, Nat.zero_add]
    exact ⟨_, rfl⟩
  · rintro (h | h)
    · subst h; rfl
    · have hf : space_separated_words app = List.splitOn ' ' app := by
        unfold space_separated_words
        apply List.filter_eq_self.mpr
        intro w hw
        cases w with
        | nil => exact absurd hw h
        | cons _ _ => rfl
      rw [hf, List.intercalate_splitOn]

/-- Witness of C5 (amended) at the command string `"a b"` with its quotes. -/
theorem main_build_arg_words_witness :
    (∀ k, (env_ok 0).realloc_ok k = true) ∧
    (∃ tr, main_build_arg (env_ok 0) ['"', 'a', ' ', 'b', '"']
      = some (Built.arg ((space_separated_words ['"', 'a', ' ', 'b', '"']).map some ++ [none])
          (space_separated_words ['"', 'a', ' ', 'b', '"']).length, tr)) ∧
    ((['"', 'a', ' ', 'b', '"'] = [] ∨ [] ∉ List.splitOn ' ' ['"', 'a', ' ', 'b', '"']) →
      List.intercalate [' '] (space_separated_words ['"', 'a', ' ', 'b', '"'])
        = ['"', 'a', ' ', 'b', '"']) :=
  ⟨fun _ => rfl, main_build_arg_words (env_ok 0) ['"', 'a', ' ', 'b', '"'] (fun _ => rfl)⟩

/-! ### getopt and the option loop -/

theorem getopt_char_shape (c : Char) (cs : CStr) (ws : List CStr) (st : GetoptState) :
    GetoptShape (getopt_char main_optstring c cs ws st) ∧
    getopt_measure (getopt_char main_optstring c cs ws st).2.1
      ≤ cs.length + (ws.map (fun w => w.length + 1)).sum := by
  unfold getopt_char main_optstring GetoptShape getopt_measure
  by_cases h1 : c = ':' ∨ c = ';'
  · simp [h1]
  · by_cases hc : c = 'c'
    · subst hc; simp [optstring_lookup]
    · by_cases ha : c = 'a'
      · subst ha
        cases cs with
        | nil =>
          cases ws with
          | nil => simp [optstring_lookup]
          | cons a ws' => simp [optstring_lookup]
        | cons x xs => simp [optstring_lookup]
      · have h2 : ¬ ('c' = c) := fun h => hc h.symm
        have h3 : ¬ ('a' = c) := fun h => ha h.symm
        have h4 : ¬ (':' = c) := fun h => h1 (Or.inl h.symm)
        simp [optstring_lookup, h1, h2, h3, h4]

theorem getopt_advance_measure (posix : Bool) :
    ∀ (l : List CStr) (c : Char) (cs : CStr) (ws : List CStr),
      getopt_advance posix l = some (c, cs, ws) →
      cs.length + (ws.map (fun w => w.length + 1)).sum + 1
        ≤ (l.map (fun w => w.length + 1)).sum := by
  intro l
  induction l with
  | nil => intro c cs ws h; simp [getopt_advance] at h
  | cons w l ih =>
    intro c cs ws h
    unfold getopt_advance at h
    split at h
    · simp at h
    · rename_i heq
      simp only [List.cons.injEq] at heq
      obtain ⟨hw, hl⟩ := heq
      subst hw hl
      split_ifs at h
      simp only [Option.some.injEq, Prod.mk.injEq] at h
      obtain ⟨rfl, rfl, rfl⟩ := h
      simp only [List.map_cons, List.sum_cons, List.length_cons]
      omega
    · rename_i heq
      simp only [List.cons.injEq] at heq
      obtain ⟨hw, hl⟩ := heq
      subst hw hl
      split_ifs at h
      have := ih c cs ws h
      simp only [List.map_cons, List.sum_cons]
      omega

theorem getopt_shape (posix : Bool) (st : GetoptState) :
    ((getopt posix main_optstring st).1 = none ∧ (getopt posix main_optstring st).2.2 = []) ∨
    (GetoptShape (getopt posix main_optstring st) ∧
      getopt_measure (getopt posix main_optstring st).2.1 < getopt_measure st) := by
  unfold getopt
  cases hn : st.nextchar with
  | cons c cs =>
    right
    have h := getopt_char_shape c cs st.rest st
    refine ⟨h.1, ?_⟩
    have h2 := h.2
    simp only [getopt_measure, hn, List.length_cons] at h2 ⊢
    omega
  | nil =>
    cases ha : getopt_advance posix st.rest with
    | none => left; simp
    | some r =>
      obtain ⟨c, cs, ws⟩ := r
      right
      have h := getopt_char_shape c cs ws st
      have hm := getopt_advance_measure posix st.rest c cs ws ha
      refine ⟨h.1, ?_⟩
      have h2 := h.2
      simp only [getopt_measure, hn, List.length_nil] at h2 ⊢
      omega

theorem main_getopt_loop_cases (env : Env) (argv0 : Option CStr) :
    ∀ (fuel : Nat) (st : GetoptState) (app_flag : Int) (app : Option CStr) (tr : List Ev),
      getopt_measure st < fuel →
      main_getopt_loop env argv0 fuel st app_flag app tr
          = some (OptLoop.returned 0, tr ++ [Ev.highlander_clean, Ev.printf_exiting]) ∨
      (∃ d x, main_getopt_loop env argv0 fuel st app_flag app tr
          = some (OptLoop.returned 1, tr ++ d ++ [Ev.stderr_unknown_parameter x, Ev.stderr_usage argv0])
        ∧ (d = [Ev.getopt_invalid_option x] ∨ d = [Ev.getopt_requires_argument x])) ∨
      (∃ app_flag' app', main_getopt_loop env argv0 fuel st app_flag app tr
          = some (OptLoop.finished app_flag' app', tr)) := by
  intro fuel
  induction fuel with
  | zero => intro st app_flag app tr h; omega
  | succ f ih =>
    intro st app_flag app tr hlt
    rcases getopt_shape env.posixly_correct st with ⟨h1, h2⟩ | ⟨hs, hm⟩
    · right; right
      exact ⟨app_flag, app, by simp [main_getopt_loop, h1, h2]⟩
    · rcases hs with ⟨h1, h2⟩ | ⟨h1, h2⟩ | ⟨h1, h2⟩
      · left
        simp [main_getopt_loop, h1, h2]
      · have hrec := ih (getopt env.posixly_correct main_optstring st).2.1 1
          (getopt env.posixly_correct main_optstring st).2.1.optarg tr (by omega)
        simpa [main_getopt_loop, h1, h2] using hrec
      · right; left
        refine ⟨(getopt env.posixly_correct main_optstring st).2.2,
          (getopt env.posixly_correct main_optstring st).2.1.optopt, ?_, h2⟩
        simp [main_getopt_loop, h1]

theorem main_getopt_loop_reaches_c (env : Env) (argv0 : Option CStr) :
    ∀ (fuel : Nat) (st : GetoptState) (app_flag : Int) (app : Option CStr) (tr : List Ev),
      (((getopt_scan env.posixly_correct main_optstring fuel st).find?
          (fun r => r.1 != 'a')).map (fun r => (r.1, r.2.optopt))).map Prod.fst = some 'c' →
      main_getopt_loop env argv0 fuel st app_flag app tr
        = some (OptLoop.returned 0, tr ++ [Ev.highlander_clean, Ev.printf_exiting]) := by
  intro fuel
  induction fuel with
  | zero => intro st app_flag app tr h; simp [getopt_scan] at h
  | succ f ih =>
    intro st app_flag app tr h
    rcases getopt_shape env.posixly_correct st with ⟨h1, h2⟩ | ⟨hs, _⟩
    · simp [getopt_scan, h1] at h
    · rcases hs with ⟨h1, h2⟩ | ⟨h1, h2⟩ | ⟨h1, h2⟩
      · simp [main_getopt_loop, h1, h2]
      · have hrec := ih (getopt env.posixly_correct main_optstring st).2.1 1
          (getopt env.posixly_correct main_optstring st).2.1.optarg tr
          (by simpa [getopt_scan, h1] using h)
        simpa [main_getopt_loop, h1, h2] using hrec
      · simp [getopt_scan, h1] at h

theorem main_strtok_loop_total (env : Env) :
    ∀ (fuel : Nat) (save : CStr) (arg : List (Option CStr)) (n : Nat) (tr : List Ev),
      save.length < fuel →
      ∃ b tr', main_strtok_loop env fuel (strtok none [' '] save).1 (strtok none [' '] save).2
          arg n tr = some (b, tr ++ tr') ∧ ∀ e ∈ tr', ∃ k, e = Ev.realloc k := by
  intro fuel
  induction fuel with
  | zero => intro save arg n tr h; omega
  | succ f ih =>
    intro save arg n tr hlen
    rw [strtok_space]
    simp only [Option.getD_none]
    cases hstr : save.dropWhile (fun c => c == ' ') with
    | nil => exact ⟨Built.arg arg n, [], by simp [main_strtok_loop], by simp⟩
    | cons x xs =>
      have hl1 := length_tail_dropWhile_lt (fun c => !(c == ' ')) x xs
      have hl2 : (x :: xs).length ≤ save.length := by
        rw [← hstr]; exact (List.dropWhile_sublist _).length_le
      simp only [if_neg (List.cons_ne_nil x xs), main_strtok_loop]
      by_cases hok : env.realloc_ok n = true
      · obtain ⟨b, tr', h1, h2⟩ := ih ((x :: xs).dropWhile (fun c => !(c == ' '))).tail
          (arg ++ [some ((x :: xs).takeWhile (fun c => !(c == ' ')))]) (n + 1)
          (tr ++ [Ev.realloc (n + 1)]) (by omega)
        refine ⟨b, Ev.realloc (n + 1) :: tr', ?_, ?_⟩
        · simp only [hok, if_true]
          rw [h1]; simp
        · intro e he
          rcases List.mem_cons.mp he with rfl | he
          · exact ⟨_, rfl⟩
          · exact h2 e he
      · refine ⟨Built.returned (Outcome.exit 1), [Ev.realloc (n + 1)], ?_, ?_⟩
        · simp only [hok]; rfl
        · intro e he; exact ⟨n + 1, by simpa using he⟩

theorem main_build_arg_total (env : Env) (app : CStr) :
    ∃ b tr, main_build_arg env app = some (b, tr) ∧ ∀ e ∈ tr, ∃ k, e = Ev.realloc k := by
  obtain ⟨b, tr', h1, h2⟩ := main_strtok_loop_total env (app.length + 1) app [] 0 [] (by omega)
  have hs : strtok (some app) [' '] [] = strtok none [' '] app := by
    simp [strtok_space]
  simp only [List.nil_append] at h1
  cases b with
  | returned o => exact ⟨Built.returned o, tr', by simp only [main_build_arg, hs, h1], h2⟩
  | arg a n =>
    by_cases hok : env.realloc_ok n = true
    · refine ⟨Built.arg (a ++ [none]) n, tr' ++ [Ev.realloc (n + 1)],
        by simp only [main_build_arg, hs, h1, hok, if_true], ?_⟩
      intro e he
      rcases List.mem_append.mp he with he | he
      · exact h2 e he
      · exact ⟨n + 1, by simpa using he⟩
    · refine ⟨Built.returned Outcome.null_dereference, tr' ++ [Ev.realloc (n + 1)],
        by simp only [main_build_arg, hs, h1, hok]; rfl, ?_⟩
      intro e he
      rcases List.mem_append.mp he with he | he
      · exact h2 e he
      · exact ⟨n + 1, by simpa using he⟩

theorem main_session_clean (env : Env) (arg : List (Option CStr)) (n : Nat) :
    Ev.highlander_clean ∉ (main_session env arg n).2 ∨
    ((main_session env arg n).1 = Outcome.exit 0 ∧
      ∃ pre, (main_session env arg n).2 = pre ++ [Ev.highlander_clean] ∧
        Ev.highlander_clean ∉ pre ∧ Ev.highlander ∈ pre ∧ Ev.highlander_wait ∈ pre) := by
  unfold main_session main_leader_fork
  split_ifs
  · left; simp
  · left; simp
  · left; simp
  · left; simp
  · left; simp
  · left; simp
  · right
    refine ⟨rfl, [Ev.highlander, Ev.gethostname, Ev.open_excl (fname_dat env),
      Ev.fdopen (fname_dat env), Ev.pthread_create_power_measurement,
      Ev.fork, Ev.waitpid env.fork, Ev.sleep, Ev.highlander_wait,
      Ev.stop_running, Ev.take_measurement, Ev.now_ms, Ev.open_excl (fname_summary env),
      Ev.fdopen (fname_summary env),
      Ev.fprintf_summary env.hostname env.fork
        ((env.end_ms + 18446744073709551616 - env.start_ms) % 18446744073709551616)
        env.start_ms env.end_ms,
      Ev.fclose_summary, Ev.close_fd, Ev.shmctl_rmid, Ev.shmdt, Ev.pthread_attr_destroy,
      Ev.printf_output_files (some (fname_dat env)) (some (fname_summary env))], ?_, ?_, ?_, ?_⟩
      <;> simp
  · left; simp
  · left; simp
  · right
    refine ⟨rfl, [Ev.highlander, Ev.fork, Ev.waitpid env.fork, Ev.highlander_wait,
      Ev.printf_output_files none none], ?_, ?_, ?_, ?_⟩ <;> simp

/-! ### Claims on main -/

/-- C6: in the leader process, when `fork()` fails (returns -1) while every
other call succeeds, `main` run as `powmon -a ls` still opens and writes
`n1.powmon.summary` and returns 0. -/
theorem main_fork_failure_not_fatal :
    main env_fork_fails [['p', 'o', 'w', 'm', 'o', 'n'], ['-', 'a'], ['l', 's']]
      = some (Outcome.exit 0,
          [Ev.realloc 1, Ev.realloc 2, Ev.highlander, Ev.gethostname,
           Ev.open_excl (fname_dat env_fork_fails), Ev.fdopen (fname_dat env_fork_fails),
           Ev.pthread_create_power_measurement, Ev.fork, Ev.waitpid (-1), Ev.sleep,
           Ev.highlander_wait, Ev.stop_running, Ev.take_measurement, Ev.now_ms,
           Ev.open_excl (fname_summary env_fork_fails), Ev.fdopen (fname_summary env_fork_fails),
           Ev.fprintf_summary ['n', '1'] (-1) 2000 1000 3000,
           Ev.fclose_summary, Ev.close_fd, Ev.shmctl_rmid, Ev.shmdt, Ev.pthread_attr_destroy,
           Ev.printf_output_files (some (fname_dat env_fork_fails))
             (some (fname_summary env_fork_fails)),
           Ev.highlander_clean]) := by
  rfl

/-- C8 as stated fails: in `powmon -x -c` the option `-c` is given, yet
`main` returns 1 without calling `highlander_clean`; in `powmon --help -c`
it prints the usage and returns 0, again without the cleanup. -/
theorem powmon_unknown_flag_then_c_skips_cleanup :
    main (env_ok 1) [['p', 'o', 'w', 'm', 'o', 'n'], ['-', 'x'], ['-', 'c']]
      = some (Outcome.exit 1, [Ev.getopt_invalid_option 'x', Ev.stderr_unknown_parameter 'x',
          Ev.stderr_usage (some ['p', 'o', 'w', 'm', 'o', 'n'])]) ∧
    main (env_ok 1) [['p', 'o', 'w', 'm', 'o', 'n'], ['-', '-', 'h', 'e', 'l', 'p'], ['-', 'c']]
      = some (Outcome.exit 0, [Ev.printf_usage (some ['p', 'o', 'w', 'm', 'o', 'n'])]) := by
  constructor <;> rfl

/-- C8 (amended): when `argv[1]` does not start with `--help` or `-h` and the
first result of `getopt` other than option `a` is option `c`, `main` calls
`highlander_clean`, prints the exit message and returns 0, and does nothing
else: no election, no file, no measurement, no thread, no workload. -/
theorem main_cleanup_only (env : Env) (argv : List CStr)
    (hu : main_wants_usage argv = false)
    (h : (first_other_option env.posixly_correct argv).map Prod.fst = some 'c') :
    main env argv = some (Outcome.exit 0, [Ev.highlander_clean, Ev.printf_exiting]) := by
  have h1 := main_getopt_loop_reaches_c env argv.head?
    (getopt_measure (getopt_init argv) + 1) (getopt_init argv) 0 none [] h
  simp only [main, hu, h1]
  simp

/-- Witness of C8 (amended): `powmon -a ls -c`. -/
theorem main_cleanup_only_witness :
    main_wants_usage [['p', 'o', 'w', 'm', 'o', 'n'], ['-', 'a'], ['l', 's'], ['-', 'c']] = false ∧
    (first_other_option (env_ok 1).posixly_correct
      [['p', 'o', 'w', 'm', 'o', 'n'], ['-', 'a'], ['l', 's'], ['-', 'c']]).map Prod.fst
      = some 'c' ∧
    main (env_ok 1) [['p', 'o', 'w', 'm', 'o', 'n'], ['-', 'a'], ['l', 's'], ['-', 'c']]
      = some (Outcome.exit 0, [Ev.highlander_clean, Ev.printf_exiting]) :=
  ⟨by rfl, by rfl,
    main_cleanup_only (env_ok 1)
      [['p', 'o', 'w', 'm', 'o', 'n'], ['-', 'a'], ['l', 's'], ['-', 'c']] (by rfl) (by rfl)⟩

/-- C9 as stated fails: `powmon -a ls`, without `-c`, run as a follower whose
workload was spawned, ends its session with a call of `highlander_clean`. -/
theorem main_session_ends_with_clean :
    main (env_ok 0) [['p', 'o', 'w', 'm', 'o', 'n'], ['-', 'a'], ['l', 's']]
      = some (Outcome.exit 0,
          [Ev.realloc 1, Ev.realloc 2, Ev.highlander, Ev.fork, Ev.waitpid 4242,
           Ev.highlander_wait, Ev.printf_output_files none none, Ev.highlander_clean]) := by
  rfl

/-- C9 (amended): every run of `main` returns, and `highlander_clean` is
called in two places only: when getopt reports `-c`, as the first action of a
run that then only prints the exit message and returns 0; and as the last
action of a measurement session that ran to its end (after the election and
after `highlander_wait`), in a run that returns 0. No run calls it twice,
and no run calls it before or during a session. -/
theorem main_highlander_clean_placement (env : Env) (argv : List CStr) :
    ∃ out tr, main env argv = some (out, tr) ∧
      (Ev.highlander_clean ∉ tr ∨
       (out = Outcome.exit 0 ∧ tr = [Ev.highlander_clean, Ev.printf_exiting]) ∨
       (out = Outcome.exit 0 ∧ ∃ pre, tr = pre ++ [Ev.highlander_clean] ∧
          Ev.highlander_clean ∉ pre ∧ Ev.highlander ∈ pre ∧ Ev.highlander_wait ∈ pre)) := by
  by_cases hu : main_wants_usage argv = true
  · exact ⟨Outcome.exit 0, [Ev.printf_usage argv.head?], by simp [main, hu], Or.inl (by simp)⟩
  · rcases main_getopt_loop_cases env argv.head? (getopt_measure (getopt_init argv) + 1)
        (getopt_init argv) 0 none [] (by omega) with h | ⟨d, x, h, hd⟩ | ⟨af, app, h⟩
    · exact ⟨Outcome.exit 0, [Ev.highlander_clean, Ev.printf_exiting],
        by simp [main, hu, h], Or.inr (Or.inl ⟨rfl, rfl⟩)⟩
    · refine ⟨Outcome.exit 1, d ++ [Ev.stderr_unknown_parameter x, Ev.stderr_usage argv.head?],
        by simp [main, hu, h], Or.inl ?_⟩
      rcases hd with rfl | rfl <;> simp
    · by_cases haf : af = 0
      · exact ⟨Outcome.exit 1, [Ev.stderr_must_specify_a, Ev.stderr_usage argv.head?],
          by simp [main, hu, h, haf], Or.inl (by simp)⟩
      · obtain ⟨b, tr2, hb, hre⟩ := main_build_arg_total env (app.getD [])
        have hno : Ev.highlander_clean ∉ tr2 := by
          intro hm
          obtain ⟨k, hk⟩ := hre _ hm
          cases hk
        cases b with
        | returned o => exact ⟨o, tr2, by simp [main, hu, h, haf, hb], Or.inl hno⟩
        | arg a n =>
          refine ⟨(main_session env a n).1, tr2 ++ (main_session env a n).2,
            by simp [main, hu, h, haf, hb], ?_⟩
          rcases main_session_clean env a n with hs | ⟨ho, pre, hp, hnp, hh, hw⟩
          · left
            intro hm
            rcases List.mem_append.mp hm with hm | hm
            · exact hno hm
            · exact hs hm
          · right; right
            refine ⟨ho, tr2 ++ pre, by rw [hp, List.append_assoc], ?_, ?_, ?_⟩
            · intro hm
              rcases List.mem_append.mp hm with hm | hm
              · exact hno hm
              · exact hnp hm
            · exact List.mem_append.mpr (Or.inr hh)
            · exact List.mem_append.mpr (Or.inr hw)

end Variorum
